import Mathlib

/-!
Verification development for the `markdown-parser` crate: a Pest-grammar
markdown-to-HTML converter.  The HTML rendering pass is translated from
`src/lib.rs` (functions `convert_to_html`, `process_heading`,
`process_inline_element`, `process_list_item`, `process_code_block`, ...)
over an untyped pair tree mirroring Pest's `Pair` values (rule tag, matched
span, inner pairs).  Strings are modelled as `List Char`; Rust byte-index
slicing panics are modelled by an `Option` layer (`none` = panic).
The grammar file `grammar.pest` is not part of the sources, so the parser
is modelled from the specification (see the definitions marked
`Modelled from the spec:`).
-/

/-- Unicode white space test, translated from Rust `char::is_whitespace`
(the Unicode `White_Space` property). -/
def isUniWs (c : Char) : Bool :=
  let n := c.toNat
  n == 9 || n == 10 || n == 11 || n == 12 || n == 13 || n == 32 ||
  n == 133 || n == 160 || n == 5760 || (8192 ≤ n && n ≤ 8202) ||
  n == 8232 || n == 8233 || n == 8239 || n == 8287 || n == 12288

/-- ASCII punctuation test, translated from Rust `char::is_ascii_punctuation`. -/
def isAsciiPunct (c : Char) : Bool :=
  let n := c.toNat
  (33 ≤ n && n ≤ 47) || (58 ≤ n && n ≤ 64) || (91 ≤ n && n ≤ 96) ||
  (123 ≤ n && n ≤ 126)

/-- ASCII digit test (`'0'` to `'9'`). -/
def isDigitCh (c : Char) : Bool :=
  48 ≤ c.toNat && c.toNat ≤ 57

/-- The backtick character, written by code point to keep source clean. -/
def btChar : Char := Char.ofNat 96

/-- HTML text escaping, translated from the `html_escape::encode_text`
call sites in `src/lib.rs`: the crate's text encoder replaces exactly
the three characters `&`, `<`, `>` by entities and leaves every other
character (including quotes) unchanged. -/
def escapeList : List Char → List Char
  | [] => []
  | c :: rest =>
    (if c = '&' then "&amp;".data
     else if c = '<' then "&lt;".data
     else if c = '>' then "&gt;".data
     else [c]) ++ escapeList rest

/-- Checker that every ampersand in a string is the head of one of the
three entities the escaper can produce. -/
def ampOK : List Char → Bool
  | [] => true
  | c :: rest =>
    if c = '&' then
      match rest with
      | 'a' :: 'm' :: 'p' :: ';' :: r => ampOK r
      | 'l' :: 't' :: ';' :: r => ampOK r
      | 'g' :: 't' :: ';' :: r => ampOK r
      | _ => false
    else ampOK rest

/-- Drop leading Unicode whitespace (Rust `str::trim_start`). -/
def ltrimWs (l : List Char) : List Char := l.dropWhile isUniWs

/-- Drop trailing Unicode whitespace (Rust `str::trim_end`). -/
def rtrimWs (l : List Char) : List Char := (l.reverse.dropWhile isUniWs).reverse

/-- Both-ends Unicode whitespace trim (Rust `str::trim`). -/
def trimWs (l : List Char) : List Char := rtrimWs (ltrimWs l)

/-- Drop trailing newline characters (Rust `str::trim_end_matches('\n')`). -/
def rtrimNl (l : List Char) : List Char :=
  (l.reverse.dropWhile (fun c => c == '\n')).reverse

/-- Grammar rule tags, mirroring the generated Pest `Rule` enum used by
`src/lib.rs` and named in `tests/grammar_tests.rs`. -/
inductive Rule where
  | document_structure
  | document_block
  | document_heading
  | h1_heading
  | h2_heading
  | h3_heading
  | document_paragraph
  | paragraph_text
  | document_quote
  | quote_line
  | document_unordered_list
  | unordered_list_item
  | document_ordered_list
  | ordered_list_item
  | code_fence
  | language_spec
  | code_body
  | thematic_break
  | blank_line
  | EOI
  | plain_text
  | inline_code
  | link
  | link_content
  | link_char
  | link_url
  | image
  | image_alt
  | image_char
  | image_url
  | bold_formatting
  | bold_content
  | italic_formatting
  | italic_content
  | strikethrough_formatting
  | strikethrough_content
  | underline_formatting
  | underline_content
  | escape_sequence
  | character
  | text_formatting
  deriving DecidableEq, Repr

/-- Debug name of a rule, mirroring Rust `format!("{:?}", rule)` on the
Pest `Rule` enum. -/
def ruleName : Rule → List Char
  | .document_structure => "document_structure".data
  | .document_block => "document_block".data
  | .document_heading => "document_heading".data
  | .h1_heading => "h1_heading".data
  | .h2_heading => "h2_heading".data
  | .h3_heading => "h3_heading".data
  | .document_paragraph => "document_paragraph".data
  | .paragraph_text => "paragraph_text".data
  | .document_quote => "document_quote".data
  | .quote_line => "quote_line".data
  | .document_unordered_list => "document_unordered_list".data
  | .unordered_list_item => "unordered_list_item".data
  | .document_ordered_list => "document_ordered_list".data
  | .ordered_list_item => "ordered_list_item".data
  | .code_fence => "code_fence".data
  | .language_spec => "language_spec".data
  | .code_body => "code_body".data
  | .thematic_break => "thematic_break".data
  | .blank_line => "blank_line".data
  | .EOI => "EOI".data
  | .plain_text => "plain_text".data
  | .inline_code => "inline_code".data
  | .link => "link".data
  | .link_content => "link_content".data
  | .link_char => "link_char".data
  | .link_url => "link_url".data
  | .image => "image".data
  | .image_alt => "image_alt".data
  | .image_char => "image_char".data
  | .image_url => "image_url".data
  | .bold_formatting => "bold_formatting".data
  | .bold_content => "bold_content".data
  | .italic_formatting => "italic_formatting".data
  | .italic_content => "italic_content".data
  | .strikethrough_formatting => "strikethrough_formatting".data
  | .strikethrough_content => "strikethrough_content".data
  | .underline_formatting => "underline_formatting".data
  | .underline_content => "underline_content".data
  | .escape_sequence => "escape_sequence".data
  | .character => "character".data
  | .text_formatting => "text_formatting".data

/-- Untyped parse-tree node mirroring a Pest `Pair`: its rule tag, the
exact span of source text it matched, and its inner pairs. -/
inductive Pair where
  | mk (rule : Rule) (span : List Char) (children : List Pair)

/-- Rule tag of a pair. -/
def Pair.rule : Pair → Rule
  | ⟨r, _, _⟩ => r

/-- Matched span of a pair. -/
def Pair.span : Pair → List Char
  | ⟨_, s, _⟩ => s

/-- Inner pairs of a pair. -/
def Pair.children : Pair → List Pair
  | ⟨_, _, c⟩ => c

/-- Error type translated from `MarkdownError` in `src/lib.rs`; the
`IoError` payload (a `std::io::Error`) is modelled as its message. -/
inductive MarkdownError where
  | ParseError (msg : List Char)
  | IoError (msg : List Char)
  deriving DecidableEq, Repr

/-- Decode the level prefix of a heading rule, as matched in
`process_heading` (`src/lib.rs` lines 130-135); `none` models the
`Invalid heading` error arm. -/
def headingLevelStr : Rule → Option (List Char)
  | .h1_heading => some "1".data
  | .h2_heading => some "2".data
  | .h3_heading => some "3".data
  | _ => none

/-- Heading text extraction from the matched span, translated from
`process_heading`: `trim_start_matches('#')`, then
`trim_start_matches(char::is_whitespace)`, then `trim_end_matches('\n')`,
then `trim()`. -/
def headingText (sp : List Char) : List Char :=
  trimWs (rtrimNl ((sp.dropWhile (fun c => c == '#')).dropWhile isUniWs))

/-- Translated from `process_heading` in `src/lib.rs`. -/
def processHeading (r : Rule) (sp : List Char) : Except MarkdownError (List Char) :=
  match headingLevelStr r with
  | none => .error (.ParseError "Invalid heading".data)
  | some d =>
    .ok (("<h".data ++ d ++ ">".data) ++ escapeList (headingText sp) ++
         ("</h".data ++ d ++ ">".data))

/-- List-item text extraction translated from `process_list_item`
(`src/lib.rs` lines 345-355): find the first whitespace character, take the
byte slice starting one byte past it, then `trim_end_matches('\n')` and
`trim()`.  Returns `none` when the Rust byte slice `&content[pos + 1..]`
would panic, which happens exactly when the first whitespace character is
a multi-byte (non-ASCII) character, since `pos + 1` then falls inside that
character's UTF-8 encoding. -/
def listItemText (sp : List Char) : Option (List Char) :=
  match sp.dropWhile (fun c => !(isUniWs c)) with
  | [] => some []
  | w :: after => if w.toNat < 128 then some (trimWs (rtrimNl after)) else none

/-- Translated from `process_list_item`; the `Option` layer models the
possible slicing panic described at `listItemText`. -/
def processListItem (sp : List Char) : Option (Except MarkdownError (List Char)) :=
  (listItemText sp).map (fun t => .ok ("<li>".data ++ escapeList t ++ "</li>".data))

/-- Strip one leading and one trailing backtick, translated from the
`inline_code` arm of `process_inline_element`:
`strip_prefix('`').and_then(strip_suffix('`')).unwrap_or("")`. -/
def stripTicks (sp : List Char) : List Char :=
  match sp with
  | c :: rest =>
    if c == btChar then
      match rest.reverse with
      | d :: mid => if d == btChar then mid.reverse else []
      | [] => []
    else []
  | [] => []

/-- Translated from `process_bold_content`: span of the first inner pair,
or the `Empty bold content` error. -/
def processBoldContent (cs : List Pair) : Except MarkdownError (List Char) :=
  match cs with
  | [] => .error (.ParseError "Empty bold content".data)
  | c :: _ => .ok (escapeList c.span)

/-- Translated from `process_italic_content`. -/
def processItalicContent (cs : List Pair) : Except MarkdownError (List Char) :=
  match cs with
  | [] => .error (.ParseError "Empty italic content".data)
  | c :: _ => .ok (escapeList c.span)

/-- Translated from `process_strikethrough_content`. -/
def processStrikethroughContent (cs : List Pair) : Except MarkdownError (List Char) :=
  match cs with
  | [] => .error (.ParseError "Empty strikethrough content".data)
  | c :: _ => .ok (escapeList c.span)

/-- Translated from `process_underline_content`. -/
def processUnderlineContent (cs : List Pair) : Except MarkdownError (List Char) :=
  match cs with
  | [] => .error (.ParseError "Empty underline content".data)
  | c :: _ => .ok (escapeList c.span)

/-- Concatenated span of a pair's inner pairs, modelling
`pair.into_inner().as_str()` (Pest returns the contiguous source slice
covered by the inner pairs; for the adjacent character pairs produced
here that slice equals the concatenation of their spans, and the empty
string when there are no inner pairs). -/
def innerConcat (p : Pair) : List Char :=
  (p.children.map Pair.span).flatten

/-- Translated from `process_link` in `src/lib.rs`: the link text is the
inner span of the first child, the URL the raw span of the second; the
URL is emitted verbatim, the text HTML-escaped. -/
def processLink (cs : List Pair) : Except MarkdownError (List Char) :=
  match cs with
  | [] => .error (.ParseError "Missing link text".data)
  | t :: rest =>
    match rest with
    | [] => .error (.ParseError "Missing link URL".data)
    | u :: _ =>
      .ok ("<a href=\"".data ++ u.span ++ "\">".data ++
           escapeList (innerConcat t) ++ "</a>".data)

/-- Translated from `process_image` in `src/lib.rs`. -/
def processImage (cs : List Pair) : Except MarkdownError (List Char) :=
  match cs with
  | [] => .error (.ParseError "Missing image alt text".data)
  | t :: rest =>
    match rest with
    | [] => .error (.ParseError "Missing image URL".data)
    | u :: _ =>
      .ok ("<img src=\"".data ++ u.span ++ "\" alt=\"".data ++
           escapeList (innerConcat t) ++ "\">".data)

/-- Translated from `process_escape_sequence` in `src/lib.rs`. -/
def processEscapeSequence (cs : List Pair) : Except MarkdownError (List Char) :=
  .ok (escapeList (match cs with
    | [] => []
    | c :: _ => c.span))

/-- Translated from `process_text_formatting` in `src/lib.rs` (the
fall-through dispatcher for formatting pairs). -/
def processTextFormatting (r : Rule) (sp : List Char) (cs : List Pair) :
    Except MarkdownError (List Char) :=
  match r with
  | .bold_formatting =>
    (processBoldContent cs).map
      (fun c => "<strong>".data ++ c ++ "</strong>".data)
  | .italic_formatting =>
    (processItalicContent cs).map (fun c => "<em>".data ++ c ++ "</em>".data)
  | .strikethrough_formatting =>
    (processStrikethroughContent cs).map
      (fun c => "<del>".data ++ c ++ "</del>".data)
  | .underline_formatting =>
    (processUnderlineContent cs).map (fun c => "<u>".data ++ c ++ "</u>".data)
  | _ => .ok (escapeList sp)

/-- Translated from `process_inline_element` in `src/lib.rs`
(lines 173-203). -/
def processInlineElement (p : Pair) : Except MarkdownError (List Char) :=
  match p with
  | ⟨.plain_text, sp, _⟩ => .ok (escapeList sp)
  | ⟨.inline_code, sp, _⟩ =>
    .ok ("<code>".data ++ escapeList (stripTicks sp) ++ "</code>".data)
  | ⟨.link, _, cs⟩ => processLink cs
  | ⟨.image, _, cs⟩ => processImage cs
  | ⟨.bold_formatting, _, cs⟩ =>
    (processBoldContent cs).map
      (fun c => "<strong>".data ++ c ++ "</strong>".data)
  | ⟨.italic_formatting, _, cs⟩ =>
    (processItalicContent cs).map (fun c => "<em>".data ++ c ++ "</em>".data)
  | ⟨.strikethrough_formatting, _, cs⟩ =>
    (processStrikethroughContent cs).map
      (fun c => "<del>".data ++ c ++ "</del>".data)
  | ⟨.underline_formatting, _, cs⟩ =>
    (processUnderlineContent cs).map (fun c => "<u>".data ++ c ++ "</u>".data)
  | ⟨.text_formatting, sp, cs⟩ => processTextFormatting .text_formatting sp cs
  | ⟨.escape_sequence, _, cs⟩ => processEscapeSequence cs
  | ⟨_, sp, _⟩ => .ok (escapeList sp)

/-- Sequence a fallible conversion over a list, concatenating the
results; translated from the `collect::<Result<String, _>>()` calls in
`src/lib.rs`, which stop at the first error. -/
def collectExcept (f : Pair → Except MarkdownError (List Char)) :
    List Pair → Except MarkdownError (List Char)
  | [] => .ok []
  | x :: xs =>
    match f x with
    | .error e => .error e
    | .ok s =>
      match collectExcept f xs with
      | .error e => .error e
      | .ok rest => .ok (s ++ rest)

/-- Translated from `process_paragraph_line`: convert and concatenate the
inline pairs of one paragraph line. -/
def processParagraphLine (cs : List Pair) : Except MarkdownError (List Char) :=
  collectExcept processInlineElement cs

/-- Translated from `process_paragraph_text` (same body as a paragraph
line; used for quote-line content). -/
def processParagraphText (cs : List Pair) : Except MarkdownError (List Char) :=
  collectExcept processInlineElement cs

/-- Translated from `process_paragraph`: concatenate the rendered lines
with no separator and wrap in one `<p>` element. -/
def processParagraph (cs : List Pair) : Except MarkdownError (List Char) :=
  (collectExcept (fun line => processParagraphLine line.children) cs).map
    (fun content => "<p>".data ++ content ++ "</p>".data)

/-- Translated from `process_code_block` in `src/lib.rs` (lines 357-375):
first inner pair is the language tag (trimmed), second the code body
(escaped); the class attribute is omitted when the trimmed language is
empty. -/
def processCodeBlock (cs : List Pair) : Except MarkdownError (List Char) :=
  let language := match cs with
    | [] => []
    | p :: _ => trimWs p.span
  let code := match cs.drop 1 with
    | [] => []
    | p :: _ => escapeList p.span
  let langAttr :=
    if language.isEmpty then []
    else " class=\"language-".data ++ language ++ "\"".data
  .ok ("<pre><code".data ++ langAttr ++ ">".data ++ code ++ "</code></pre>".data)

/-- Sequence the list-item conversion over the items of a list block,
modelling the iterator in `process_unordered_list`/`process_ordered_list`:
a panic (`none`) or the first error stops the traversal. -/
def listItemsAux : List Pair → Option (Except MarkdownError (List (List Char)))
  | [] => some (.ok [])
  | ⟨_, sp, _⟩ :: rest =>
    match processListItem sp with
    | none => none
    | some (.error e) => some (.error e)
    | some (.ok s) =>
      match listItemsAux rest with
      | none => none
      | some (.error e) => some (.error e)
      | some (.ok ss) => some (.ok (s :: ss))

/-- Translated from `process_unordered_list` in `src/lib.rs`. -/
def processUnorderedList (cs : List Pair) :
    Option (Except MarkdownError (List Char)) :=
  match listItemsAux cs with
  | none => none
  | some (.error e) => some (.error e)
  | some (.ok items) =>
    some (.ok ("<ul>\n".data ++ List.intercalate "\n".data items ++ "\n</ul>".data))

/-- Translated from `process_ordered_list` in `src/lib.rs`. -/
def processOrderedList (cs : List Pair) :
    Option (Except MarkdownError (List Char)) :=
  match listItemsAux cs with
  | none => none
  | some (.error e) => some (.error e)
  | some (.ok items) =>
    some (.ok ("<ol>\n".data ++ List.intercalate "\n".data items ++ "\n</ol>".data))

/-- Quote traversal translated from `process_quote` and
`process_quote_line`, parameterised by the recursive conversion: each
quote line with no inner pair renders `<p></p>`, otherwise its first
inner pair is converted and wrapped in `<p>`; results are collected,
stopping at the first panic or error. -/
def quoteLineWith (conv : Pair → Option (Except MarkdownError (List Char))) :
    List Pair → Option (Except MarkdownError (List Char))
  | [] => some (.ok "<p></p>".data)
  | c :: _ =>
    match conv c with
    | none => none
    | some (.error e) => some (.error e)
    | some (.ok h) => some (.ok ("<p>".data ++ h ++ "</p>".data))

/-- Quote traversal continued (see `quoteLineWith`): results of all lines
are collected, stopping at the first panic or error. -/
def quoteLinesWith (conv : Pair → Option (Except MarkdownError (List Char))) :
    List Pair → Option (Except MarkdownError (List (List Char)))
  | [] => some (.ok [])
  | ⟨_, _, lcs⟩ :: rest =>
    match quoteLineWith conv lcs with
    | none => none
    | some (.error e) => some (.error e)
    | some (.ok s) =>
      match quoteLinesWith conv rest with
      | none => none
      | some (.error e) => some (.error e)
      | some (.ok ss) => some (.ok (s :: ss))

/-- One dispatch layer of `convert_to_html` (`src/lib.rs` lines 95-120),
parameterised by the recursive conversion used for nested pairs.  `none`
models a panic: the `unwrap` on the inner pair of a `document_block` or
`document_heading`, and the byte-slice panic inside `process_list_item`. -/
def convertStep (conv : Pair → Option (Except MarkdownError (List Char)))
    (p : Pair) : Option (Except MarkdownError (List Char)) :=
  match p with
  | ⟨.document_block, _, cs⟩ =>
    match cs with
    | [] => none
    | c :: _ => conv c
  | ⟨.document_heading, _, cs⟩ =>
    match cs with
    | [] => none
    | c :: _ => some (processHeading c.rule c.span)
  | ⟨.h1_heading, sp, _⟩ => some (processHeading .h1_heading sp)
  | ⟨.h2_heading, sp, _⟩ => some (processHeading .h2_heading sp)
  | ⟨.h3_heading, sp, _⟩ => some (processHeading .h3_heading sp)
  | ⟨.document_paragraph, _, cs⟩ => some (processParagraph cs)
  | ⟨.document_quote, _, cs⟩ =>
    match quoteLinesWith conv cs with
    | none => none
    | some (.error e) => some (.error e)
    | some (.ok ls) =>
      some (.ok ("<blockquote>\n".data ++
        List.intercalate "\n".data (ls.filter (fun s => !s.isEmpty)) ++
        "\n</blockquote>".data))
  | ⟨.quote_line, _, cs⟩ =>
    match cs with
    | [] => some (.ok "<p></p>".data)
    | c :: _ =>
      match conv c with
      | none => none
      | some (.error e) => some (.error e)
      | some (.ok h) => some (.ok ("<p>".data ++ h ++ "</p>".data))
  | ⟨.paragraph_text, _, cs⟩ => some (processParagraphText cs)
  | ⟨.document_unordered_list, _, cs⟩ => processUnorderedList cs
  | ⟨.document_ordered_list, _, cs⟩ => processOrderedList cs
  | ⟨.unordered_list_item, sp, _⟩ => processListItem sp
  | ⟨.ordered_list_item, sp, _⟩ => processListItem sp
  | ⟨.code_fence, _, cs⟩ => some (processCodeBlock cs)
  | ⟨.thematic_break, _, _⟩ => some (.ok "<hr>".data)
  | ⟨.blank_line, _, _⟩ => some (.ok "<br>".data)
  | ⟨.EOI, _, _⟩ => some (.ok [])
  | ⟨r, _, _⟩ =>
    some (.error (.ParseError ("Unknown rule: ".data ++ ruleName r)))

/-- Fuel-indexed recursive conversion; the fuel only bounds the nesting
depth of the pair tree (parser output nests at most three conversion
levels, far below the budget used by `convertToHtml`). -/
def convertFuel : Nat → Pair → Option (Except MarkdownError (List Char))
  | 0, _ => some (.error (.ParseError "recursion limit exceeded".data))
  | f + 1, p => convertStep (convertFuel f) p

/-- Translated from `convert_to_html` in `src/lib.rs`. -/
def convertToHtml (p : Pair) : Option (Except MarkdownError (List Char)) :=
  convertFuel 64 p

/-- Sequence the block conversion over the top-level blocks, modelling the
`map(convert_to_html).collect::<Result<Vec<String>, _>>()` pipeline of
`str_to_html`: a panic (`none`) or the first error stops the traversal. -/
def mapPanicExcept (f : Pair → Option (Except MarkdownError (List Char))) :
    List Pair → Option (Except MarkdownError (List (List Char)))
  | [] => some (.ok [])
  | x :: xs =>
    match f x with
    | none => none
    | some (.error e) => some (.error e)
    | some (.ok s) =>
      match mapPanicExcept f xs with
      | none => none
      | some (.error e) => some (.error e)
      | some (.ok rest) => some (.ok (s :: rest))

/-- Filter predicate from `str_to_html`:
`!matches!(pair.as_rule(), Rule::EOI)`. -/
def notEOI (p : Pair) : Bool :=
  match p.rule with
  | .EOI => false
  | _ => true

/-- Modelled from the spec: the grammar file `grammar.pest` is not among
the sources, so line splitting follows the line-oriented block grammar of
spec section 4.1: the input is cut at every newline; a trailing newline
does not open an extra empty line. -/
def splitAux : List Char → List (List Char)
  | [] => [[]]
  | '\n' :: rest => [] :: splitAux rest
  | c :: rest =>
    match splitAux rest with
    | [] => [[c]]
    | h :: t => (c :: h) :: t

/-- Modelled from the spec: split source text into lines (see `splitAux`). -/
def splitLines (l : List Char) : List (List Char) :=
  if l = [] then []
  else
    match l.getLast? with
    | some '\n' => (splitAux l).dropLast
    | _ => splitAux l

/-- Modelled from the spec: grammar-level whitespace after a block marker
(heading and list-item markers), taken as ASCII space or tab. -/
def isMarkerWs (c : Char) : Bool := c == ' ' || c == '\t'

/-- Modelled from the spec: a blank line is a line with no content. -/
def isBlankLine (l : List Char) : Bool := l.all isUniWs

/-- Length of the leading run of `#` markers. -/
def countHash (l : List Char) : Nat := (l.takeWhile (fun c => c == '#')).length

/-- Modelled from the spec: a heading line has 1-3 leading `#` markers
followed by at least one whitespace character and some non-whitespace
text; `"#"`, `"#text"` and `"####text"` are not headings
(spec section 4.1, required negative cases). -/
def isHeadingLine (l : List Char) : Bool :=
  let n := countHash l
  decide (1 ≤ n) && decide (n ≤ 3) &&
  (match l.drop n with
   | w :: rest => isMarkerWs w && rest.any (fun c => !(isUniWs c))
   | [] => false)

/-- Heading rule for a marker-run length. -/
def headingRule : Nat → Rule
  | 1 => .h1_heading
  | 2 => .h2_heading
  | _ => .h3_heading

/-- Modelled from the spec: a thematic break is a line of three or more
uniform `-`, `*` or `_` characters, ignoring trailing whitespace. -/
def isThematicLine (l : List Char) : Bool :=
  let t := rtrimWs l
  decide (3 ≤ t.length) &&
  (t.all (fun c => c == '-') || t.all (fun c => c == '*') ||
   t.all (fun c => c == '_'))

/-- Modelled from the spec: a quote line begins with the `>` marker. -/
def isQuoteStart (l : List Char) : Bool :=
  match l with
  | '>' :: _ => true
  | _ => false

/-- Modelled from the spec: an unordered list item is `-` or `*` followed
by whitespace. -/
def isUnordItem (l : List Char) : Bool :=
  match l with
  | m :: w :: _ => (m == '-' || m == '*') && isMarkerWs w
  | _ => false

/-- Modelled from the spec: an ordered list item is one or more digits,
then `.`, then whitespace. -/
def isOrdItem (l : List Char) : Bool :=
  !(l.takeWhile isDigitCh).isEmpty &&
  (match l.dropWhile isDigitCh with
   | '.' :: w :: _ => isMarkerWs w
   | _ => false)

/-- Modelled from the spec: an opening code-fence line starts with a
triple backtick; the rest of the line is the optional language tag. -/
def isFenceStart (l : List Char) : Bool := l.take 3 == "```".data

/-- Modelled from the spec: a closing code-fence line is a triple
backtick, ignoring trailing whitespace. -/
def isFenceClose (l : List Char) : Bool := rtrimWs l == "```".data

/-- Modelled from the spec: a paragraph continues over consecutive lines
until a blank line or a line matching a more specific block rule
(spec section 4.1, Paragraph fallback). -/
def isParaCont (l : List Char) : Bool :=
  !(isBlankLine l) && !(isHeadingLine l) && !(isThematicLine l) &&
  !(isQuoteStart l) && !(isUnordItem l) && !(isOrdItem l) && !(isFenceStart l)

/-- Modelled from the spec: inline escape-sequence rule.  A backslash
followed immediately by a punctuation character consumes both characters
as one escape-sequence pair holding the escaped character; a backslash
followed by anything else (in particular whitespace) fails to match
(spec section 4.1, rule 1). -/
def tryEscape : List Char → Option (Pair × List Char)
  | '\\' :: c :: rest =>
    if isAsciiPunct c then
      some (⟨.escape_sequence, ['\\', c], [⟨.character, [c], []⟩]⟩, rest)
    else none
  | _ => none

/-- Modelled from the spec: bold rule `**text**`, attempted before italic
(spec section 4.1, rule 2); the content is a nonempty run of characters
other than the delimiter and newline. -/
def tryBold : List Char → Option (Pair × List Char)
  | '*' :: '*' :: rest =>
    let t := rest.takeWhile (fun c => !(c == '*') && !(c == '\n'))
    if t.isEmpty then none
    else
      match rest.drop t.length with
      | '*' :: '*' :: rem =>
        some (⟨.bold_formatting, '*' :: '*' :: (t ++ ['*', '*']),
               [⟨.bold_content, t, []⟩]⟩, rem)
      | _ => none
  | _ => none

/-- Modelled from the spec: underline rule `__text__`, attempted before
single-underscore italic (spec section 4.1, rule 3). -/
def tryUnderline : List Char → Option (Pair × List Char)
  | '_' :: '_' :: rest =>
    let t := rest.takeWhile (fun c => !(c == '_') && !(c == '\n'))
    if t.isEmpty then none
    else
      match rest.drop t.length with
      | '_' :: '_' :: rem =>
        some (⟨.underline_formatting, '_' :: '_' :: (t ++ ['_', '_']),
               [⟨.underline_content, t, []⟩]⟩, rem)
      | _ => none
  | _ => none

/-- Modelled from the spec: italic rule, `*text*` or `_text_`. -/
def tryItalic : List Char → Option (Pair × List Char)
  | '*' :: rest =>
    let t := rest.takeWhile (fun c => !(c == '*') && !(c == '\n'))
    if t.isEmpty then none
    else
      match rest.drop t.length with
      | '*' :: rem =>
        some (⟨.italic_formatting, '*' :: (t ++ ['*']),
               [⟨.italic_content, t, []⟩]⟩, rem)
      | _ => none
  | '_' :: rest =>
    let t := rest.takeWhile (fun c => !(c == '_') && !(c == '\n'))
    if t.isEmpty then none
    else
      match rest.drop t.length with
      | '_' :: rem =>
        some (⟨.italic_formatting, '_' :: (t ++ ['_']),
               [⟨.italic_content, t, []⟩]⟩, rem)
      | _ => none
  | _ => none

/-- Modelled from the spec: strikethrough rule `~~text~~`. -/
def tryStrike : List Char → Option (Pair × List Char)
  | '~' :: '~' :: rest =>
    let t := rest.takeWhile (fun c => !(c == '~') && !(c == '\n'))
    if t.isEmpty then none
    else
      match rest.drop t.length with
      | '~' :: '~' :: rem =>
        some (⟨.strikethrough_formatting, '~' :: '~' :: (t ++ ['~', '~']),
               [⟨.strikethrough_content, t, []⟩]⟩, rem)
      | _ => none
  | _ => none

/-- Modelled from the spec: inline-code rule, backtick-delimited; the
span keeps its delimiters (the renderer strips them). -/
def tryCode (s : List Char) : Option (Pair × List Char) :=
  match s with
  | c :: rest =>
    if c == btChar then
      let t := rest.takeWhile (fun d => !(d == btChar) && !(d == '\n'))
      match rest.drop t.length with
      | d :: rem =>
        if d == btChar then
          some (⟨.inline_code, (btChar :: t) ++ [btChar], []⟩, rem)
        else none
      | [] => none
    else none
  | [] => none

/-- Modelled from the spec: image rule `![alt](url)`; the alt text is
exposed as character pairs inside an `image_alt` pair, the URL as an
`image_url` pair. -/
def tryImage : List Char → Option (Pair × List Char)
  | '!' :: '[' :: rest =>
    let a := rest.takeWhile (fun c => !(c == ']') && !(c == '\n'))
    (match rest.drop a.length with
     | ']' :: '(' :: rest2 =>
       let u := rest2.takeWhile (fun c => !(c == ')') && !(c == '\n'))
       (match rest2.drop u.length with
        | ')' :: rem =>
          some (⟨.image, '!' :: '[' :: (a ++ [']', '('] ++ u ++ [')']),
                 [⟨.image_alt, a, a.map (fun c => ⟨.image_char, [c], []⟩)⟩,
                  ⟨.image_url, u, []⟩]⟩, rem)
        | _ => none)
     | _ => none)
  | _ => none

/-- Modelled from the spec: link rule `[text](url)`. -/
def tryLink : List Char → Option (Pair × List Char)
  | '[' :: rest =>
    let a := rest.takeWhile (fun c => !(c == ']') && !(c == '\n'))
    (match rest.drop a.length with
     | ']' :: '(' :: rest2 =>
       let u := rest2.takeWhile (fun c => !(c == ')') && !(c == '\n'))
       (match rest2.drop u.length with
        | ')' :: rem =>
          some (⟨.link, '[' :: (a ++ [']', '('] ++ u ++ [')']),
                 [⟨.link_content, a, a.map (fun c => ⟨.link_char, [c], []⟩)⟩,
                  ⟨.link_url, u, []⟩]⟩, rem)
        | _ => none)
     | _ => none)
  | _ => none

/-- Modelled from the spec: ordered choice over the inline constructs at
one position, in the priority order of spec section 4.1 (escape first,
bold before italic, underline before italic). -/
def inlineStep (s : List Char) : Option (Pair × List Char) :=
  List.findSome? id
    [tryEscape s, tryBold s, tryUnderline s, tryItalic s, tryStrike s,
     tryCode s, tryImage s, tryLink s]

/-- Flush a run of pending plain characters (held in reverse) as one
`plain_text` pair, per spec section 4.1 rule 5. -/
def flushPlain (pend : List Char) (tail : List Pair) : List Pair :=
  if pend.isEmpty then tail else ⟨.plain_text, pend.reverse, []⟩ :: tail

/-- Modelled from the spec: inline scanner.  At each position the inline
constructs are tried in order; a position starting no construct is
consumed as plain text, with consecutive plain characters accumulated
into a single `plain_text` pair.  Fuel only bounds the number of
iterations; every iteration consumes at least one character, so the
`s.length + 1` budget of `parseInlines` never runs out. -/
def goInline : Nat → List Char → List Char → List Pair
  | _, [], pend => flushPlain pend []
  | 0, s, pend => flushPlain (s.reverse ++ pend) []
  | f + 1, c :: rest, pend =>
    match inlineStep (c :: rest) with
    | some (p, rem) => flushPlain pend (p :: goInline f rem [])
    | none => goInline f rest (c :: pend)

/-- Modelled from the spec: parse one line of inline content. -/
def parseInlines (s : List Char) : List Pair :=
  goInline (s.length + 1) s []

/-- A paragraph-line pair (`paragraph_text`) wrapping its inline pairs. -/
def mkParaLine (line : List Char) : Pair :=
  ⟨.paragraph_text, line, parseInlines line⟩

/-- Modelled from the spec: a quote line wraps the remainder after the
`>` marker as inline content; an empty remainder yields a `quote_line`
with no inner pair (spec section 4.1: an empty quote line is an
empty-content line, not an error). -/
def mkQuoteLine (line : List Char) : Pair :=
  let rest := line.drop 1
  if rest.isEmpty then ⟨.quote_line, line, []⟩
  else ⟨.quote_line, line, [mkParaLine rest]⟩

/-- Modelled from the spec: block-level recognition, line-oriented with
lookahead, in the priority order of spec section 4.1 (blank line, heading,
thematic break, quote run, list runs, code fence, paragraph fallback).
Fuel only bounds the number of blocks; every block consumes at least one
line, so the `lines.length + 1` budget of `parseBlocks` never runs out. -/
def parseBlocksFuel : Nat → List (List Char) → List Pair
  | 0, _ => []
  | f + 1, lines =>
    match lines with
    | [] => []
    | line :: rest =>
      if isBlankLine line then
        ⟨.blank_line, line, []⟩ :: parseBlocksFuel f rest
      else if isHeadingLine line then
        ⟨headingRule (countHash line), line, []⟩ :: parseBlocksFuel f rest
      else if isThematicLine line then
        ⟨.thematic_break, line, []⟩ :: parseBlocksFuel f rest
      else if isQuoteStart line then
        ⟨.document_quote, line,
         (line :: rest.takeWhile isQuoteStart).map mkQuoteLine⟩ ::
        parseBlocksFuel f (rest.dropWhile isQuoteStart)
      else if isUnordItem line then
        ⟨.document_unordered_list, line,
         (line :: rest.takeWhile isUnordItem).map
           (fun ln => ⟨.unordered_list_item, ln, []⟩)⟩ ::
        parseBlocksFuel f (rest.dropWhile isUnordItem)
      else if isOrdItem line then
        ⟨.document_ordered_list, line,
         (line :: rest.takeWhile isOrdItem).map
           (fun ln => ⟨.ordered_list_item, ln, []⟩)⟩ ::
        parseBlocksFuel f (rest.dropWhile isOrdItem)
      else if isFenceStart line then
        match rest.findIdx? isFenceClose with
        | some j =>
          ⟨.code_fence, line,
           [⟨.language_spec, line.drop 3, []⟩,
            ⟨.code_body, List.intercalate ['\n'] (rest.take j), []⟩]⟩ ::
          parseBlocksFuel f (rest.drop (j + 1))
        | none =>
          ⟨.document_paragraph, line,
           (line :: rest.takeWhile isParaCont).map mkParaLine⟩ ::
          parseBlocksFuel f (rest.dropWhile isParaCont)
      else
        ⟨.document_paragraph, line,
         (line :: rest.takeWhile isParaCont).map mkParaLine⟩ ::
        parseBlocksFuel f (rest.dropWhile isParaCont)

/-- Modelled from the spec: parse the top-level blocks of a document. -/
def parseBlocks (lines : List (List Char)) : List Pair :=
  parseBlocksFuel (lines.length + 1) lines

/-- Wrap a block in its `document_block` container, as the Pest grammar's
`document_structure` does. -/
def wrapBlock (b : Pair) : Pair := ⟨.document_block, b.span, [b]⟩

/-- Modelled from the spec: the `document_structure` pair, whose inner
pairs are the top-level blocks in source order, terminated by the
end-of-input marker. -/
def parseDoc (input : List Char) : Pair :=
  ⟨.document_structure, input,
   (parseBlocks (splitLines input)).map wrapBlock ++ [⟨.EOI, [], []⟩]⟩

/-- Translated from `parse_markdown` in `src/lib.rs`, over the modelled
grammar: the spec's Paragraph and PlainText fallbacks make the modelled
parser total, so the parse never fails. -/
def parseMarkdown (input : List Char) :
    Except MarkdownError (List Pair) :=
  .ok [parseDoc input]

/-- Translated from `str_to_html` in `src/lib.rs` (lines 72-85): parse,
take the document pair, filter the end-of-input marker, convert every
top-level block. -/
def strToHtml (input : List Char) :
    Option (Except MarkdownError (List (List Char))) :=
  match parseMarkdown input with
  | .error e => some (.error e)
  | .ok pairs =>
    match pairs with
    | [] => some (.error (.ParseError "Empty document".data))
    | doc :: _ => mapPanicExcept convertToHtml (doc.children.filter notEOI)

/-- Holds when an `Except` result is not the `IoError` variant. -/
def excNotIo {α : Type} : Except MarkdownError α → Bool
  | .error (.IoError _) => false
  | _ => true

/-- Holds when an optional `Except` result is not the `IoError` variant. -/
def optNotIo {α : Type} : Option (Except MarkdownError α) → Bool
  | some e => excNotIo e
  | none => true

/-- Holds when the first whitespace character of a span (if any) is an
ASCII character, so the `pos + 1` byte slice of `process_list_item`
cannot fall inside a multi-byte character. -/
def asciiFirstWs (sp : List Char) : Bool :=
  match sp.dropWhile (fun c => !(isUniWs c)) with
  | [] => true
  | w :: _ => w.toNat < 128

/-- Shape invariant for a list-item pair produced by the parser. -/
def itemGoodB (p : Pair) : Bool :=
  match p with
  | ⟨.unordered_list_item, sp, _⟩ => asciiFirstWs sp
  | ⟨.ordered_list_item, sp, _⟩ => asciiFirstWs sp
  | _ => false

/-- Shape invariant for a quote-line pair produced by the parser: no
inner pair, or a `paragraph_text` first inner pair. -/
def quoteLineGoodB (p : Pair) : Bool :=
  match p with
  | ⟨_, _, []⟩ => true
  | ⟨_, _, ⟨.paragraph_text, _, _⟩ :: _⟩ => true
  | _ => false

/-- Shape invariant for a top-level block pair produced by the parser,
sufficient for the conversion pass to run without hitting a panic. -/
def blockGoodB (b : Pair) : Bool :=
  match b with
  | ⟨.h1_heading, _, _⟩ => true
  | ⟨.h2_heading, _, _⟩ => true
  | ⟨.h3_heading, _, _⟩ => true
  | ⟨.thematic_break, _, _⟩ => true
  | ⟨.blank_line, _, _⟩ => true
  | ⟨.document_paragraph, _, _⟩ => true
  | ⟨.code_fence, _, _⟩ => true
  | ⟨.document_quote, _, cs⟩ => cs.all quoteLineGoodB
  | ⟨.document_unordered_list, _, cs⟩ => cs.all itemGoodB
  | ⟨.document_ordered_list, _, cs⟩ => cs.all itemGoodB
  | _ => false

/-- The wrapped top-level block pairs of a document, in source order. -/
def topBlocks (input : List Char) : List Pair :=
  (parseBlocks (splitLines input)).map wrapBlock

/-- Decimal digit string of a heading level in 1-3. -/
def digitOf : Nat → List Char
  | 1 => "1".data
  | 2 => "2".data
  | _ => "3".data


/-- Holds when a `MarkdownError` is not the `IoError` variant. -/
def errNotIo : MarkdownError → Bool
  | .IoError _ => false
  | _ => true

section EscapeLemmas

/-- Helper: `ampOK` skips any non-ampersand head character. -/
theorem ampOK_cons (c : Char) (l : List Char) (h : c ≠ '&') :
    ampOK (c :: l) = ampOK l := by
  rw [ampOK.eq_def]
  simp [h]

/-- Helper: the escaper never emits a literal angle bracket. -/
theorem escape_all_no_angle (s : List Char) :
    (escapeList s).all (fun c => !(c == '<') && !(c == '>')) = true := by
  induction s with
  | nil => rfl
  | cons c t ih =>
    by_cases h1 : c = '&'
    · subst h1; simpa [escapeList] using ih
    · by_cases h2 : c = '<'
      · subst h2; simpa [escapeList] using ih
      · by_cases h3 : c = '>'
        · subst h3; simpa [escapeList] using ih
        · simp [escapeList, h1, h2, h3, ih]

/-- Helper: every ampersand in escaper output heads an entity. -/
theorem escape_ampOK (s : List Char) : ampOK (escapeList s) = true := by
  induction s with
  | nil => rfl
  | cons c t ih =>
    by_cases h1 : c = '&'
    · subst h1
      exact (show ampOK (escapeList ('&' :: t)) = ampOK (escapeList t) from
        rfl).trans ih
    · by_cases h2 : c = '<'
      · subst h2
        exact (show ampOK (escapeList ('<' :: t)) = ampOK (escapeList t) from
          rfl).trans ih
      · by_cases h3 : c = '>'
        · subst h3
          exact (show ampOK (escapeList ('>' :: t)) = ampOK (escapeList t) from
            rfl).trans ih
        · have he : escapeList (c :: t) = c :: escapeList t := by
            simp [escapeList, h1, h2, h3]
          rw [he, ampOK_cons c _ h1]
          exact ih

end EscapeLemmas

set_option maxRecDepth 20000

/-- Claim C1, counterexample: the claim asserts that no quote character
from user text reaches the output unescaped, but `html_escape::encode_text`
escapes only `&`, `<`, `>`; on the input `He said "hi"` the rendered
paragraph contains the literal quote characters of the user text. -/
theorem claim1_quote_counterexample :
    strToHtml "He said \"hi\"".data =
      some (.ok ["<p>He said \"hi\"</p>".data]) ∧
    '"' ∈ "He said \"hi\"".data ∧
    '"' ∈ "<p>He said \"hi\"</p>".data := by
  refine ⟨rfl, by decide, by decide⟩

/-- Claim C1, amended: every user-supplied text span that reaches the
output via plain text, formatted inline content, image alt text, heading
text, list-item text, or code bodies is passed through the HTML text
escaper, and the escaper's output contains no literal `<` or `>` and
every `&` in it heads an entity; quote characters are not escaped and
pass through literally. -/
theorem claim1_amended_escaping (s sp url : List Char) (r : Rule)
    (cs cs2 : List Pair) :
    ((escapeList s).all (fun c => !(c == '<') && !(c == '>')) = true)
  ∧ ampOK (escapeList s) = true
  ∧ processInlineElement ⟨.plain_text, s, cs⟩ = .ok (escapeList s)
  ∧ processInlineElement ⟨.bold_formatting, sp, ⟨r, s, cs2⟩ :: cs⟩ =
      .ok ("<strong>".data ++ escapeList s ++ "</strong>".data)
  ∧ processInlineElement ⟨.italic_formatting, sp, ⟨r, s, cs2⟩ :: cs⟩ =
      .ok ("<em>".data ++ escapeList s ++ "</em>".data)
  ∧ processInlineElement ⟨.strikethrough_formatting, sp, ⟨r, s, cs2⟩ :: cs⟩ =
      .ok ("<del>".data ++ escapeList s ++ "</del>".data)
  ∧ processInlineElement ⟨.underline_formatting, sp, ⟨r, s, cs2⟩ :: cs⟩ =
      .ok ("<u>".data ++ escapeList s ++ "</u>".data)
  ∧ processImage [⟨.image_alt, sp, [⟨.image_char, s, []⟩]⟩,
                  ⟨.image_url, url, cs⟩] =
      .ok ("<img src=\"".data ++ url ++ "\" alt=\"".data ++ escapeList s ++
           "\">".data)
  ∧ processHeading .h1_heading sp =
      .ok ("<h1>".data ++ escapeList (headingText sp) ++ "</h1>".data)
  ∧ processListItem sp =
      (listItemText sp).map
        (fun t => .ok ("<li>".data ++ escapeList t ++ "</li>".data))
  ∧ processCodeBlock [⟨.language_spec, [], cs2⟩, ⟨.code_body, s, cs⟩] =
      .ok ("<pre><code>".data ++ escapeList s ++ "</code></pre>".data)
  ∧ processInlineElement ⟨.inline_code, sp, cs⟩ =
      .ok ("<code>".data ++ escapeList (stripTicks sp) ++ "</code>".data) := by
  have himg : innerConcat ⟨.image_alt, sp, [⟨.image_char, s, []⟩]⟩ = s := by
    simp [innerConcat, Pair.children, Pair.span]
  refine ⟨escape_all_no_angle s, escape_ampOK s, rfl, rfl, rfl, rfl, rfl,
    ?_, rfl, rfl, rfl, rfl⟩
  simp only [processImage, himg, Pair.span]

/-- Claim C3: the end-to-end example from the spec renders to exactly the
four expected HTML strings in order. -/
theorem claim3_end_to_end :
    strToHtml "# Hello\n___\n\nThis is **bold** text.".data =
      some (.ok ["<h1>Hello</h1>".data, "<hr>".data, "<br>".data,
                 "<p>This is <strong>bold</strong> text.</p>".data]) := rfl

/-- Claim C4: a fenced code block with a language tag renders with the
`language-` class and the escaped, uninterpreted body; every fence pair
with an empty language tag renders with no class attribute while still
emitting the escaped body (shown on the renderer for arbitrary bodies and
end-to-end on concrete inputs, including a body holding markup and a
body holding an HTML-reserved character). -/
theorem claim4_code_fence :
    strToHtml "```py\ncode\n```".data =
      some (.ok ["<pre><code class=\"language-py\">code</code></pre>".data]) ∧
    (∀ (body : List Char) (cs cs2 : List Pair),
      processCodeBlock [⟨.language_spec, [], cs2⟩, ⟨.code_body, body, cs⟩] =
        .ok ("<pre><code>".data ++ escapeList body ++ "</code></pre>".data)) ∧
    strToHtml "```\na&b\n```".data =
      some (.ok ["<pre><code>a&amp;b</code></pre>".data]) ∧
    strToHtml "```\n**x**\n```".data =
      some (.ok ["<pre><code>**x**</code></pre>".data]) := by
  exact ⟨rfl, fun body cs cs2 => rfl, rfl, rfl⟩

/-- Claim C8: rendering a bold, italic, strikethrough or underline pair
with no captured inner content is the corresponding empty-content error,
while a quote line with no inner content renders to `<p></p>` without
error. -/
theorem claim8_empty_content (sp : List Char) :
    processInlineElement ⟨.bold_formatting, sp, []⟩ =
      .error (.ParseError "Empty bold content".data)
  ∧ processInlineElement ⟨.italic_formatting, sp, []⟩ =
      .error (.ParseError "Empty italic content".data)
  ∧ processInlineElement ⟨.strikethrough_formatting, sp, []⟩ =
      .error (.ParseError "Empty strikethrough content".data)
  ∧ processInlineElement ⟨.underline_formatting, sp, []⟩ =
      .error (.ParseError "Empty underline content".data)
  ∧ convertToHtml ⟨.quote_line, sp, []⟩ = some (.ok "<p></p>".data) := by
  exact ⟨rfl, rfl, rfl, rfl, rfl⟩

/-- Helper: Unicode whitespace is never ASCII punctuation. -/
theorem ws_not_punct (c : Char) (h : isUniWs c = true) :
    isAsciiPunct c = false := by
  simp only [isUniWs, Bool.or_eq_true, beq_iff_eq, Bool.and_eq_true,
    decide_eq_true_eq] at h
  simp only [isAsciiPunct, Bool.or_eq_false_iff, Bool.and_eq_false_iff,
    decide_eq_false_iff_not, not_le]
  omega

/-- Claim C9: a backslash followed immediately by a punctuation character
is consumed as one escape-sequence pair (two characters), which renders
as the escaped single character; a backslash followed by whitespace fails
to match the escape-sequence rule.  Concretely, input `\*` renders the
literal `*`, not italic markup, and the escape rule rejects `\ a`. -/
theorem claim9_escape_rule :
    (∀ (c : Char) (rest : List Char), isAsciiPunct c = true →
       tryEscape ('\\' :: c :: rest) =
         some (⟨.escape_sequence, ['\\', c], [⟨.character, [c], []⟩]⟩, rest))
  ∧ (∀ (c : Char) (cs : List Pair),
       processInlineElement ⟨.escape_sequence, ['\\', c],
         ⟨.character, [c], []⟩ :: cs⟩ = .ok (escapeList [c]))
  ∧ (∀ (c : Char) (rest : List Char), isUniWs c = true →
       tryEscape ('\\' :: c :: rest) = none)
  ∧ tryEscape "\\ a".data = none
  ∧ strToHtml "\\*".data = some (.ok ["<p>*</p>".data]) := by
  refine ⟨?_, fun c cs => rfl, ?_, rfl, rfl⟩
  · intro c rest h
    simp [tryEscape, h]
  · intro c rest h
    simp [tryEscape, ws_not_punct c h]

/-- Witness for claim C9 at the punctuation character `*` and the
whitespace character `' '`. -/
theorem claim9_witness :
    tryEscape ('\\' :: '*' :: "x".data) =
      some (⟨.escape_sequence, ['\\', '*'], [⟨.character, ['*'], []⟩]⟩,
            "x".data) ∧
    tryEscape ('\\' :: ' ' :: "a".data) = none :=
  ⟨claim9_escape_rule.1 '*' "x".data (by decide),
   claim9_escape_rule.2.2.1 ' ' "a".data (by decide)⟩

/-- Helper: the ok constructor is never an `IoError`. -/
theorem excNotIo_ok (v : List Char) : excNotIo (Except.ok v) = true := rfl

/-- Helper: `excNotIo` on an error depends only on the error value. -/
theorem excNotIo_error {α : Type} (e : MarkdownError) :
    excNotIo (Except.error e : Except MarkdownError α) = errNotIo e := by
  cases e <;> rfl

/-- Helper: `optNotIo` on a present value is `excNotIo`. -/
theorem optNotIo_some {α : Type} (x : Except MarkdownError α) :
    optNotIo (some x) = excNotIo x := rfl

/-- Helper: mapping over an `Except` does not change its error. -/
theorem excNotIo_map (f : List Char → List Char)
    (e : Except MarkdownError (List Char)) :
    excNotIo (Except.map f e) = excNotIo e := by
  cases e with
  | error err => cases err <;> rfl
  | ok v => rfl

/-- Helper: `process_link` never produces an `IoError`. -/
theorem excNotIo_processLink (cs : List Pair) :
    excNotIo (processLink cs) = true := by
  rcases cs with _ | ⟨t, rest⟩
  · rfl
  · rcases rest with _ | ⟨u, r2⟩ <;> rfl

/-- Helper: `process_image` never produces an `IoError`. -/
theorem excNotIo_processImage (cs : List Pair) :
    excNotIo (processImage cs) = true := by
  rcases cs with _ | ⟨t, rest⟩
  · rfl
  · rcases rest with _ | ⟨u, r2⟩ <;> rfl

/-- Helper: `process_bold_content` never produces an `IoError`. -/
theorem excNotIo_boldContent (cs : List Pair) :
    excNotIo (processBoldContent cs) = true := by
  rcases cs with _ | ⟨c, rest⟩ <;> rfl

/-- Helper: `process_italic_content` never produces an `IoError`. -/
theorem excNotIo_italicContent (cs : List Pair) :
    excNotIo (processItalicContent cs) = true := by
  rcases cs with _ | ⟨c, rest⟩ <;> rfl

/-- Helper: `process_strikethrough_content` never produces an `IoError`. -/
theorem excNotIo_strikeContent (cs : List Pair) :
    excNotIo (processStrikethroughContent cs) = true := by
  rcases cs with _ | ⟨c, rest⟩ <;> rfl

/-- Helper: `process_underline_content` never produces an `IoError`. -/
theorem excNotIo_underlineContent (cs : List Pair) :
    excNotIo (processUnderlineContent cs) = true := by
  rcases cs with _ | ⟨c, rest⟩ <;> rfl

/-- Helper: `process_text_formatting` never produces an `IoError`. -/
theorem excNotIo_textFormatting (r : Rule) (sp : List Char) (cs : List Pair) :
    excNotIo (processTextFormatting r sp cs) = true := by
  cases r <;>
    simp [processTextFormatting, excNotIo_map, excNotIo_boldContent,
      excNotIo_italicContent, excNotIo_strikeContent,
      excNotIo_underlineContent, excNotIo_ok]

/-- Helper: `process_inline_element` never produces an `IoError`. -/
theorem excNotIo_processInline (p : Pair) :
    excNotIo (processInlineElement p) = true := by
  rcases p with ⟨r, sp, cs⟩
  cases r <;>
    simp [processInlineElement, excNotIo_map, excNotIo_processLink,
      excNotIo_processImage, excNotIo_boldContent, excNotIo_italicContent,
      excNotIo_strikeContent, excNotIo_underlineContent,
      excNotIo_textFormatting, processEscapeSequence, excNotIo_ok]

/-- Helper: collecting inline conversions never produces an `IoError`. -/
theorem excNotIo_collect (f : Pair → Except MarkdownError (List Char))
    (hf : ∀ x, excNotIo (f x) = true) (l : List Pair) :
    excNotIo (collectExcept f l) = true := by
  induction l with
  | nil => rfl
  | cons x xs ih =>
    simp only [collectExcept]
    split
    · rename_i e heq
      have h1 := hf x
      rw [heq, excNotIo_error] at h1
      rw [excNotIo_error]
      exact h1
    · split
      · rename_i e2 heq2
        rw [heq2, excNotIo_error] at ih
        rw [excNotIo_error]
        exact ih
      · rfl

/-- Helper: `process_heading` never produces an `IoError`. -/
theorem excNotIo_processHeading (r : Rule) (sp : List Char) :
    excNotIo (processHeading r sp) = true := by
  cases r <;> rfl

/-- Helper: `process_paragraph` never produces an `IoError`. -/
theorem excNotIo_processParagraph (cs : List Pair) :
    excNotIo (processParagraph cs) = true := by
  rw [processParagraph, excNotIo_map]
  exact excNotIo_collect _ (fun x => excNotIo_collect _ excNotIo_processInline _) cs

/-- Helper: `process_list_item` never produces an `IoError`. -/
theorem optNotIo_processListItem (sp : List Char) :
    optNotIo (processListItem sp) = true := by
  rw [processListItem]
  rcases listItemText sp with _ | t <;> rfl

/-- Helper: the list-item traversal never produces an `IoError`. -/
theorem optNotIo_listItemsAux (cs : List Pair) :
    optNotIo (listItemsAux cs) = true := by
  induction cs with
  | nil => rfl
  | cons c rest ih =>
    rcases c with ⟨r, sp, ccs⟩
    simp only [listItemsAux]
    split
    · rfl
    · rename_i e heq
      have h1 := optNotIo_processListItem sp
      rw [heq, optNotIo_some, excNotIo_error] at h1
      rw [optNotIo_some, excNotIo_error]
      exact h1
    · split
      · rfl
      · rename_i e2 heq2
        rw [heq2, optNotIo_some, excNotIo_error] at ih
        rw [optNotIo_some, excNotIo_error]
        exact ih
      · rfl

/-- Helper: `process_unordered_list` never produces an `IoError`. -/
theorem optNotIo_processUnordered (cs : List Pair) :
    optNotIo (processUnorderedList cs) = true := by
  have h := optNotIo_listItemsAux cs
  rw [processUnorderedList]
  split
  · rfl
  · rename_i e heq
    rw [heq, optNotIo_some, excNotIo_error] at h
    rw [optNotIo_some, excNotIo_error]
    exact h
  · rfl

/-- Helper: `process_ordered_list` never produces an `IoError`. -/
theorem optNotIo_processOrdered (cs : List Pair) :
    optNotIo (processOrderedList cs) = true := by
  have h := optNotIo_listItemsAux cs
  rw [processOrderedList]
  split
  · rfl
  · rename_i e heq
    rw [heq, optNotIo_some, excNotIo_error] at h
    rw [optNotIo_some, excNotIo_error]
    exact h
  · rfl

/-- Helper: the quote-line traversal never produces an `IoError` when the
nested conversion never does. -/
theorem optNotIo_quoteLine
    (conv : Pair → Option (Except MarkdownError (List Char)))
    (hc : ∀ c, optNotIo (conv c) = true) (lcs : List Pair) :
    optNotIo (quoteLineWith conv lcs) = true := by
  rcases lcs with _ | ⟨c, lcs2⟩
  · rfl
  · simp only [quoteLineWith]
    split
    · rfl
    · rename_i e heq
      have h1 := hc c
      rw [heq, optNotIo_some, excNotIo_error] at h1
      rw [optNotIo_some, excNotIo_error]
      exact h1
    · rfl

/-- Helper: the quote-line traversal never produces an `IoError` when the
nested conversion never does. -/
theorem optNotIo_quoteLines
    (conv : Pair → Option (Except MarkdownError (List Char)))
    (hc : ∀ c, optNotIo (conv c) = true) (cs : List Pair) :
    optNotIo (quoteLinesWith conv cs) = true := by
  induction cs with
  | nil => rfl
  | cons l rest ih =>
    rcases l with ⟨r, sp, lcs⟩
    simp only [quoteLinesWith]
    split
    · rfl
    · rename_i e heq
      have h1 := optNotIo_quoteLine conv hc lcs
      rw [heq, optNotIo_some, excNotIo_error] at h1
      rw [optNotIo_some, excNotIo_error]
      exact h1
    · split
      · rfl
      · rename_i e2 heq2
        rw [heq2, optNotIo_some, excNotIo_error] at ih
        rw [optNotIo_some, excNotIo_error]
        exact ih
      · rfl

/-- Helper: one conversion layer never produces an `IoError` when the
nested conversion never does. -/
theorem optNotIo_convertStep
    (conv : Pair → Option (Except MarkdownError (List Char)))
    (hc : ∀ c, optNotIo (conv c) = true) (p : Pair) :
    optNotIo (convertStep conv p) = true := by
  rcases p with ⟨r, sp, cs⟩
  cases r
  case document_block =>
    rcases cs with _ | ⟨c, rest⟩
    · rfl
    · exact hc c
  case document_heading =>
    rcases cs with _ | ⟨c, rest⟩
    · rfl
    · exact excNotIo_processHeading c.rule c.span
  case document_quote =>
    have h := optNotIo_quoteLines conv hc cs
    simp only [convertStep]
    split
    · rfl
    · rename_i e heq
      rw [heq, optNotIo_some, excNotIo_error] at h
      rw [optNotIo_some, excNotIo_error]
      exact h
    · rfl
  case quote_line =>
    rcases cs with _ | ⟨c, rest⟩
    · rfl
    · have h1 := hc c
      simp only [convertStep]
      split
      · rfl
      · rename_i e heq
        rw [heq, optNotIo_some, excNotIo_error] at h1
        rw [optNotIo_some, excNotIo_error]
        exact h1
      · rfl
  case document_paragraph => exact excNotIo_processParagraph cs
  case paragraph_text =>
    exact excNotIo_collect _ excNotIo_processInline cs
  case document_unordered_list => exact optNotIo_processUnordered cs
  case document_ordered_list => exact optNotIo_processOrdered cs
  case unordered_list_item => exact optNotIo_processListItem sp
  case ordered_list_item => exact optNotIo_processListItem sp
  case h1_heading => exact excNotIo_processHeading .h1_heading sp
  case h2_heading => exact excNotIo_processHeading .h2_heading sp
  case h3_heading => exact excNotIo_processHeading .h3_heading sp
  case code_fence => rfl
  all_goals rfl

/-- Helper: the fuelled conversion never produces an `IoError`. -/
theorem optNotIo_convertFuel (f : Nat) (p : Pair) :
    optNotIo (convertFuel f p) = true := by
  induction f generalizing p with
  | zero => rfl
  | succ g ih => exact optNotIo_convertStep (convertFuel g) ih p

/-- Helper: the block traversal never produces an `IoError`. -/
theorem optNotIo_mapPanic
    (f : Pair → Option (Except MarkdownError (List Char)))
    (hf : ∀ p, optNotIo (f p) = true) (ps : List Pair) :
    optNotIo (mapPanicExcept f ps) = true := by
  induction ps with
  | nil => rfl
  | cons x xs ih =>
    simp only [mapPanicExcept]
    split
    · rfl
    · rename_i e heq
      have h1 := hf x
      rw [heq, optNotIo_some, excNotIo_error] at h1
      rw [optNotIo_some, excNotIo_error]
      exact h1
    · split
      · rfl
      · rename_i e2 heq2
        rw [heq2, optNotIo_some, excNotIo_error] at ih
        rw [optNotIo_some, excNotIo_error]
        exact ih
      · rfl

/-- Claim C10: every error the two entry points can return is the
`ParseError` variant; the `IoError` variant is never produced by
`parse_markdown` or `str_to_html`, and rendering failures travel through
the same `ParseError` variant. -/
theorem claim10_error_taxonomy (input : List Char) :
    optNotIo (strToHtml input) = true
  ∧ excNotIo (parseMarkdown input) = true
  ∧ ∀ p : Pair, optNotIo (convertToHtml p) = true := by
  refine ⟨?_, rfl, fun p => optNotIo_convertFuel 64 p⟩
  rw [strToHtml]
  exact optNotIo_mapPanic convertToHtml (fun p => optNotIo_convertFuel 64 p) _

/-- Helper: an ASCII digit is not whitespace. -/
theorem digit_not_ws (c : Char) (h : isDigitCh c = true) :
    isUniWs c = false := by
  simp only [isDigitCh, Bool.and_eq_true, decide_eq_true_eq] at h
  simp only [isUniWs, Bool.or_eq_false_iff, Bool.and_eq_false_iff, beq_eq_false_iff_ne,
    ne_eq, decide_eq_false_iff_not, not_le]
  omega

/-- Helper: a good list-item span converts without hitting the slicing
panic. -/
theorem listItem_isSome (sp : List Char) (h : asciiFirstWs sp = true) :
    (processListItem sp).isSome = true := by
  rw [processListItem, listItemText]
  rw [asciiFirstWs] at h
  rcases hdw : sp.dropWhile (fun c => !(isUniWs c)) with _ | ⟨w, after⟩
  · rfl
  · rw [hdw] at h
    replace h : decide (w.toNat < 128) = true := h
    show (Option.map
        (fun t => Except.ok ("<li>".data ++ escapeList t ++ "</li>".data))
        (if w.toNat < 128 then some (trimWs (rtrimNl after)) else none)).isSome =
      true
    rw [if_pos (of_decide_eq_true h)]
    rfl

/-- Helper: an unordered-item line has an ASCII first whitespace
character. -/
theorem unord_ascii (ln : List Char) (h : isUnordItem ln = true) :
    asciiFirstWs ln = true := by
  rcases ln with _ | ⟨m, rest⟩
  · exact absurd h (by simp [isUnordItem])
  · rcases rest with _ | ⟨w, rest2⟩
    · exact absurd h (by simp [isUnordItem])
    · simp only [isUnordItem, Bool.and_eq_true, Bool.or_eq_true, beq_iff_eq,
        isMarkerWs] at h
      obtain ⟨hm, hw⟩ := h
      rcases hm with rfl | rfl <;> rcases hw with rfl | rfl <;> rfl

/-- Helper: an ordered-item line has an ASCII first whitespace
character. -/
theorem ord_ascii (ln : List Char) (h : isOrdItem ln = true) :
    asciiFirstWs ln = true := by
  simp only [isOrdItem, Bool.and_eq_true] at h
  obtain ⟨hds, hrest⟩ := h
  have hds2 : ∀ c ∈ ln.takeWhile isDigitCh, (!(isUniWs c)) = true := by
    intro c hc
    simp [digit_not_ws c (List.mem_takeWhile_imp hc)]
  rw [asciiFirstWs, ← List.takeWhile_append_dropWhile isDigitCh ln,
    List.dropWhile_append_of_pos hds2]
  split at hrest
  · rename_i w rest2 heq
    rw [heq]
    simp only [isMarkerWs, Bool.or_eq_true, beq_iff_eq] at hrest
    rcases hrest with rfl | rfl <;> rfl
  · exact absurd hrest (by simp)

/-- Helper: an item-good pair has an ASCII first whitespace in its span. -/
theorem itemGood_ascii (r : Rule) (sp : List Char) (ccs : List Pair)
    (h : itemGoodB ⟨r, sp, ccs⟩ = true) : asciiFirstWs sp = true := by
  cases r <;> simp [itemGoodB] at h <;> exact h

/-- Helper: the item traversal of a good item list never panics. -/
theorem listItemsAux_isSome (cs : List Pair)
    (h : ∀ p ∈ cs, itemGoodB p = true) :
    (listItemsAux cs).isSome = true := by
  induction cs with
  | nil => rfl
  | cons c rest ih =>
    rcases c with ⟨r, sp, ccs⟩
    have hgood := h _ (List.mem_cons.mpr (Or.inl rfl))
    have hsp := itemGood_ascii r sp ccs hgood
    obtain ⟨x, hx⟩ := Option.isSome_iff_exists.mp (listItem_isSome sp hsp)
    obtain ⟨y, hy⟩ :=
      Option.isSome_iff_exists.mp (ih (fun p hp => h p (List.mem_cons.mpr (Or.inr hp))))
    simp only [listItemsAux]
    rw [hx, hy]
    cases x with
    | error e => rfl
    | ok s =>
      cases y with
      | error e2 => rfl
      | ok ss => rfl

/-- Helper: converting a `paragraph_text` pair never panics, at any
fuel. -/
theorem paraText_isSome (g : Nat) (sp : List Char) (lcs : List Pair) :
    (convertFuel g ⟨.paragraph_text, sp, lcs⟩).isSome = true := by
  cases g <;> rfl

/-- Helper: the quote traversal of good quote lines never panics when
the nested conversion is the fuelled converter. -/
theorem quoteLines_isSome (g : Nat) (cs : List Pair)
    (h : ∀ p ∈ cs, quoteLineGoodB p = true) :
    (quoteLinesWith (convertFuel g) cs).isSome = true := by
  induction cs with
  | nil => rfl
  | cons l rest ih =>
    rcases l with ⟨r, sp, lcs⟩
    have hgood := h _ (List.mem_cons.mpr (Or.inl rfl))
    obtain ⟨y, hy⟩ :=
      Option.isSome_iff_exists.mp (ih (fun p hp => h p (List.mem_cons.mpr (Or.inr hp))))
    rcases lcs with _ | ⟨c, lcs2⟩
    · simp only [quoteLinesWith, quoteLineWith]
      rw [hy]
      cases y with
      | error e2 => rfl
      | ok ss => rfl
    · rcases c with ⟨cr, csp, ccs⟩
      have hcr : cr = Rule.paragraph_text := by
        cases cr <;> first | rfl | simp [quoteLineGoodB] at hgood
      subst hcr
      obtain ⟨x, hx⟩ :=
        Option.isSome_iff_exists.mp (paraText_isSome g csp ccs)
      simp only [quoteLinesWith, quoteLineWith]
      rw [hx, hy]
      cases x with
      | error e => rfl
      | ok s =>
        cases y with
        | error e2 => rfl
        | ok ss => rfl

/-- Helper: converting a good wrapped block never panics. -/
theorem convert_wrap_isSome (g : Nat) (b : Pair)
    (h : blockGoodB b = true) :
    (convertFuel (g + 2) (wrapBlock b)).isSome = true := by
  rcases b with ⟨r, sp, cs⟩
  have hw : convertFuel (g + 2) (wrapBlock ⟨r, sp, cs⟩) =
      convertFuel (g + 1) ⟨r, sp, cs⟩ := rfl
  rw [hw]
  cases r
  case h1_heading => rfl
  case h2_heading => rfl
  case h3_heading => rfl
  case thematic_break => rfl
  case blank_line => rfl
  case document_paragraph => rfl
  case code_fence => rfl
  case document_quote =>
    have hq : ∀ p ∈ cs, quoteLineGoodB p = true := by
      simp only [blockGoodB, List.all_eq_true] at h
      exact h
    obtain ⟨x, hx⟩ := Option.isSome_iff_exists.mp (quoteLines_isSome g cs hq)
    show (convertStep (convertFuel g) ⟨.document_quote, sp, cs⟩).isSome = true
    simp only [convertStep]
    rw [hx]
    cases x with
    | error e => rfl
    | ok ls => rfl
  case document_unordered_list =>
    have hi : ∀ p ∈ cs, itemGoodB p = true := by
      simp only [blockGoodB, List.all_eq_true] at h
      exact h
    obtain ⟨x, hx⟩ := Option.isSome_iff_exists.mp (listItemsAux_isSome cs hi)
    show (convertStep (convertFuel g) ⟨.document_unordered_list, sp, cs⟩).isSome = true
    simp only [convertStep, processUnorderedList]
    rw [hx]
    cases x with
    | error e => rfl
    | ok items => rfl
  case document_ordered_list =>
    have hi : ∀ p ∈ cs, itemGoodB p = true := by
      simp only [blockGoodB, List.all_eq_true] at h
      exact h
    obtain ⟨x, hx⟩ := Option.isSome_iff_exists.mp (listItemsAux_isSome cs hi)
    show (convertStep (convertFuel g) ⟨.document_ordered_list, sp, cs⟩).isSome = true
    simp only [convertStep, processOrderedList]
    rw [hx]
    cases x with
    | error e => rfl
    | ok items => rfl
  all_goals simp [blockGoodB] at h

/-- Helper: any heading rule produced by `headingRule` is a good block. -/
theorem headingRule_good (n : Nat) (sp : List Char) (cs : List Pair) :
    blockGoodB ⟨headingRule n, sp, cs⟩ = true := by
  rcases n with _ | _ | _ | n <;> rfl

/-- Helper: every quote-line pair built by the parser is good. -/
theorem mkQuoteLine_good (ln : List Char) :
    quoteLineGoodB (mkQuoteLine ln) = true := by
  simp only [mkQuoteLine]
  split <;> rfl

/-- Helper: every block the modelled parser produces is good. -/
theorem parseBlocks_good (f : Nat) :
    ∀ (lines : List (List Char)) (b : Pair),
      b ∈ parseBlocksFuel f lines → blockGoodB b = true := by
  induction f with
  | zero =>
    intro lines b hb
    simp [parseBlocksFuel] at hb
  | succ g ih =>
    intro lines b hb
    rcases lines with _ | ⟨line, rest⟩
    · simp [parseBlocksFuel] at hb
    · simp only [parseBlocksFuel] at hb
      split_ifs at hb with h1 h2 h3 h4 h5 h6 h7
      · rcases List.mem_cons.mp hb with rfl | hm
        · rfl
        · exact ih rest b hm
      · rcases List.mem_cons.mp hb with rfl | hm
        · exact headingRule_good _ _ _
        · exact ih rest b hm
      · rcases List.mem_cons.mp hb with rfl | hm
        · rfl
        · exact ih rest b hm
      · rcases List.mem_cons.mp hb with rfl | hm
        · simp only [blockGoodB]
          rw [List.all_eq_true]
          rintro p hp
          obtain ⟨ln, hln, rfl⟩ := List.mem_map.mp hp
          exact mkQuoteLine_good ln
        · exact ih _ b hm
      · rcases List.mem_cons.mp hb with rfl | hm
        · simp only [blockGoodB]
          rw [List.all_eq_true]
          rintro p hp
          obtain ⟨ln, hln, rfl⟩ := List.mem_map.mp hp
          simp only [itemGoodB]
          apply unord_ascii
          rcases List.mem_cons.mp hln with rfl | hm2
          · exact h5
          · exact List.mem_takeWhile_imp hm2
        · exact ih _ b hm
      · rcases List.mem_cons.mp hb with rfl | hm
        · simp only [blockGoodB]
          rw [List.all_eq_true]
          rintro p hp
          obtain ⟨ln, hln, rfl⟩ := List.mem_map.mp hp
          simp only [itemGoodB]
          apply ord_ascii
          rcases List.mem_cons.mp hln with rfl | hm2
          · exact h6
          · exact List.mem_takeWhile_imp hm2
        · exact ih _ b hm
      · split at hb
        · rcases List.mem_cons.mp hb with rfl | hm
          · rfl
          · exact ih _ b hm
        · rcases List.mem_cons.mp hb with rfl | hm
          · rfl
          · exact ih _ b hm
      · rcases List.mem_cons.mp hb with rfl | hm
        · rfl
        · exact ih _ b hm

/-- Helper: the end-of-input filter of `str_to_html` keeps exactly the
wrapped top-level blocks. -/
theorem filter_topBlocks (input : List Char) :
    (parseDoc input).children.filter notEOI = topBlocks input := by
  simp only [parseDoc, Pair.children, topBlocks]
  rw [List.filter_append]
  have h1 : List.filter notEOI ((parseBlocks (splitLines input)).map wrapBlock) =
      (parseBlocks (splitLines input)).map wrapBlock := by
    apply List.filter_eq_self.mpr
    intro a ha
    obtain ⟨b, _, rfl⟩ := List.mem_map.mp ha
    rfl
  have h2 : List.filter notEOI [(⟨.EOI, [], []⟩ : Pair)] = [] := rfl
  rw [h1, h2, List.append_nil]

/-- Helper: unfolding of `str_to_html` through the modelled parser. -/
theorem strToHtml_eq (input : List Char) :
    strToHtml input = mapPanicExcept convertToHtml (topBlocks input) := by
  have h0 : strToHtml input =
      mapPanicExcept convertToHtml ((parseDoc input).children.filter notEOI) := rfl
  rw [h0, filter_topBlocks]

/-- Helper: the block traversal of panic-free blocks is panic-free. -/
theorem mapPanic_isSome
    (f : Pair → Option (Except MarkdownError (List Char))) :
    ∀ ps : List Pair, (∀ p ∈ ps, (f p).isSome = true) →
      (mapPanicExcept f ps).isSome = true := by
  intro ps
  induction ps with
  | nil => intro h; rfl
  | cons x xs ih =>
    intro h
    obtain ⟨v, hv⟩ :=
      Option.isSome_iff_exists.mp (h x (List.mem_cons.mpr (Or.inl rfl)))
    obtain ⟨w, hw⟩ :=
      Option.isSome_iff_exists.mp (ih (fun p hp => h p (List.mem_cons.mpr (Or.inr hp))))
    simp only [mapPanicExcept]
    rw [hv, hw]
    cases v with
    | error e => rfl
    | ok s =>
      cases w with
      | error e2 => rfl
      | ok ss => rfl

/-- Helper: the full pipeline always produces a value. -/
theorem strToHtml_isSome (input : List Char) :
    (strToHtml input).isSome = true := by
  rw [strToHtml_eq]
  apply mapPanic_isSome
  intro p hp
  rw [topBlocks] at hp
  obtain ⟨b, hb, rfl⟩ := List.mem_map.mp hp
  have hg := parseBlocks_good _ _ b hb
  exact convert_wrap_isSome 62 b hg

/-- Claim C2: for every input, `parse_markdown` and `str_to_html` never
panic: the whole pipeline produces a value (`none` would model the
`unwrap` panic on an empty `document_block` and the `pos + 1` byte-slice
panic inside `process_list_item`, and neither is reachable from parser
output). -/
theorem claim2_no_panic (input : List Char) :
    (strToHtml input).isSome = true ∧ parseMarkdown input = .ok [parseDoc input] :=
  ⟨strToHtml_isSome input, rfl⟩

/-- Helper: a successful block traversal yields exactly one result per
block, in order. -/
theorem mapPanic_ok (f : Pair → Option (Except MarkdownError (List Char))) :
    ∀ (ps : List Pair) (rs : List (List Char)),
      mapPanicExcept f ps = some (.ok rs) →
      rs.length = ps.length ∧
      ∀ i (hi : i < ps.length) (hj : i < rs.length),
        f (ps.get ⟨i, hi⟩) = some (.ok (rs.get ⟨i, hj⟩)) := by
  intro ps
  induction ps with
  | nil =>
    intro rs h
    simp only [mapPanicExcept, Option.some.injEq, Except.ok.injEq] at h
    subst h
    exact ⟨rfl, fun i hi hj => absurd hi (by simp)⟩
  | cons x xs ih =>
    intro rs h
    simp only [mapPanicExcept] at h
    split at h
    · exact absurd h (by simp)
    · exact absurd h (by simp)
    · rename_i s heq
      split at h
      · exact absurd h (by simp)
      · exact absurd h (by simp)
      · rename_i ss heq2
        simp only [Option.some.injEq, Except.ok.injEq] at h
        subst h
        obtain ⟨hlen, hpt⟩ := ih ss heq2
        refine ⟨by simp [hlen], ?_⟩
        intro i hi hj
        cases i with
        | zero => exact heq
        | succ k =>
          exact hpt k (by simpa using hi) (by simpa using hj)

/-- Claim C6: for every input the parse succeeds with one document pair;
the end-of-input marker is filtered out before rendering, every pair
passed to the renderer is a non-marker block, and a successful conversion
returns exactly one HTML string per top-level block in source order. -/
theorem claim6_block_mapping (input : List Char) :
    parseMarkdown input = .ok [parseDoc input]
  ∧ (parseDoc input).children.filter notEOI = topBlocks input
  ∧ (∀ p ∈ topBlocks input, notEOI p = true)
  ∧ strToHtml input = mapPanicExcept convertToHtml (topBlocks input)
  ∧ (∀ rs, strToHtml input = some (.ok rs) →
      rs.length = (topBlocks input).length ∧
      ∀ i (hi : i < (topBlocks input).length) (hj : i < rs.length),
        convertToHtml ((topBlocks input).get ⟨i, hi⟩) =
          some (.ok (rs.get ⟨i, hj⟩))) := by
  refine ⟨rfl, filter_topBlocks input, ?_, strToHtml_eq input, ?_⟩
  · intro p hp
    rw [topBlocks] at hp
    obtain ⟨b, _, rfl⟩ := List.mem_map.mp hp
    rfl
  · intro rs h
    rw [strToHtml_eq] at h
    exact mapPanic_ok convertToHtml (topBlocks input) rs h

/-- Witness for claim C6 on the input `# Hi`, whose single block maps to
the single returned string. -/
theorem claim6_witness :
    strToHtml "# Hi".data = some (.ok ["<h1>Hi</h1>".data]) ∧
    (["<h1>Hi</h1>".data] : List (List Char)).length =
      (topBlocks "# Hi".data).length :=
  ⟨rfl, ((claim6_block_mapping "# Hi".data).2.2.2.2 _ rfl).1⟩

/-- Claim C7: `str_to_html` is all-or-nothing: it returns either the HTML
of the whole document or a single error, never a partial result, and if
converting any top-level block fails then the whole traversal cannot
succeed. -/
theorem claim7_all_or_nothing :
    (∀ input : List Char, (∃ rs, strToHtml input = some (.ok rs)) ∨
       (∃ e, strToHtml input = some (.error e)))
  ∧ (∀ (ps : List Pair) (p : Pair) (e : MarkdownError), p ∈ ps →
       convertToHtml p = some (.error e) →
       (mapPanicExcept convertToHtml ps = none ∨
        ∃ e2, mapPanicExcept convertToHtml ps = some (.error e2))) := by
  constructor
  · intro input
    obtain ⟨v, hv⟩ := Option.isSome_iff_exists.mp (strToHtml_isSome input)
    cases v with
    | ok rs => exact Or.inl ⟨rs, hv⟩
    | error e => exact Or.inr ⟨e, hv⟩
  · intro ps p e hp he
    induction ps with
    | nil => exact absurd hp (by simp)
    | cons x xs ih =>
      rcases List.mem_cons.mp hp with rfl | hm
      · right
        refine ⟨e, ?_⟩
        simp only [mapPanicExcept]
        rw [he]
      · rcases hfx : convertToHtml x with _ | ⟨e3 | s⟩
        · left
          simp only [mapPanicExcept]
          rw [hfx]
        · right
          refine ⟨e3, ?_⟩
          simp only [mapPanicExcept]
          rw [hfx]
        · rcases ih hm with hnone | ⟨e2, he2⟩
          · left
            simp only [mapPanicExcept]
            rw [hfx, hnone]
          · right
            refine ⟨e2, ?_⟩
            simp only [mapPanicExcept]
            rw [hfx, he2]

/-- Witness for claim C7: a pair the dispatcher has no template for makes
the whole traversal fail. -/
theorem claim7_witness :
    mapPanicExcept convertToHtml [⟨.bold_formatting, [], []⟩] = none ∨
    ∃ e2, mapPanicExcept convertToHtml [⟨.bold_formatting, [], []⟩] =
      some (.error e2) :=
  claim7_all_or_nothing.2 _ ⟨.bold_formatting, [], []⟩
    (.ParseError ("Unknown rule: bold_formatting".data))
    (List.mem_cons.mpr (Or.inl rfl)) rfl

/-- Helper: `dropWhile` is idempotent. -/
theorem dropWhile_idem (p : Char → Bool) (l : List Char) :
    List.dropWhile p (List.dropWhile p l) = List.dropWhile p l := by
  induction l with
  | nil => rfl
  | cons c t ih =>
    by_cases h : p c = true
    · rw [List.dropWhile_cons_of_pos h, ih]
    · rw [List.dropWhile_cons_of_neg h, List.dropWhile_cons_of_neg h]

/-- Helper: trailing-newline trimming is the identity on newline-free
text. -/
theorem rtrimNl_no_nl (l : List Char) (h : ∀ c ∈ l, c ≠ '\n') :
    rtrimNl l = l := by
  rw [rtrimNl]
  rcases hr : l.reverse with _ | ⟨c, t⟩
  · exact (List.reverse_eq_nil_iff.mp hr).symm
  · have hc : c ∈ l := by
      have : c ∈ l.reverse := by
        rw [hr]
        exact List.mem_cons.mpr (Or.inl rfl)
      simpa using this
    have hne : ((fun d => d == '\n') c = true) → False := by
      simp
      exact h c hc
    have hd : List.dropWhile (fun d => d == '\n') (c :: t) = c :: t :=
      List.dropWhile_cons_of_neg hne
    rw [hd, ← hr, List.reverse_reverse]

/-- Helper: line splitting is trivial on newline-free nonempty text. -/
theorem splitAux_no_nl (l : List Char) (h : ∀ c ∈ l, c ≠ '\n') :
    splitAux l = [l] := by
  induction l with
  | nil => rfl
  | cons c t ih =>
    have hc : c ≠ '\n' := h c (List.mem_cons.mpr (Or.inl rfl))
    have ht := ih (fun d hd => h d (List.mem_cons.mpr (Or.inr hd)))
    rw [splitAux.eq_def]
    split
    · rename_i heq
      exact absurd heq (by simp)
    · rename_i rest heq
      obtain ⟨h1, h2⟩ := List.cons_eq_cons.mp heq
      exact absurd h1 hc
    · rename_i c2 rest heq
      obtain ⟨h1, h2⟩ := List.cons_eq_cons.mp heq
      subst h1
      subst h2
      rw [ht]

/-- Helper: a nonempty newline-free text is a single line. -/
theorem splitLines_single (l : List Char) (hne : l ≠ [])
    (h : ∀ c ∈ l, c ≠ '\n') : splitLines l = [l] := by
  rw [splitLines, if_neg hne]
  have hlast : ∀ c, l.getLast? = some c → c ≠ '\n' := by
    intro c hc
    exact h c (List.mem_of_mem_getLast? hc)
  split
  · rename_i heq
    exact absurd rfl (hlast '\n' heq)
  · exact splitAux_no_nl l h

/-- Helper: the empty line list parses to no blocks, at any fuel. -/
theorem parseBlocksFuel_nil (f : Nat) : parseBlocksFuel f [] = [] := by
  cases f <;> rfl

/-- Helper: a single heading line parses to one heading block. -/
theorem parseBlocksFuel_heading (f : Nat) (line : List Char)
    (hb : isBlankLine line = false) (hh : isHeadingLine line = true) :
    parseBlocksFuel (f + 1) [line] =
      [⟨headingRule (countHash line), line, []⟩] := by
  simp only [parseBlocksFuel]
  rw [if_neg (by simp [hb]), if_pos hh, parseBlocksFuel_nil]

/-- Helper: heading-text extraction on a marker-prefixed line. -/
theorem headingText_eq (l text : List Char)
    (hdw : (l.dropWhile (fun c => c == '#')).dropWhile isUniWs =
      text.dropWhile isUniWs)
    (hnl : ∀ c ∈ text, c ≠ '\n') :
    headingText l = rtrimWs (text.dropWhile isUniWs) := by
  rw [headingText, hdw]
  have hnl2 : ∀ c ∈ text.dropWhile isUniWs, c ≠ '\n' := by
    intro c hc
    exact hnl c ((List.dropWhile_sublist isUniWs).subset hc)
  rw [rtrimNl_no_nl _ hnl2, trimWs, ltrimWs, dropWhile_idem]

/-- Helper: pipeline computation for a document that is a single heading
line. -/
theorem heading_pipeline (l text : List Char) (hrule : Rule) (d : List Char)
    (hsplit : splitLines l = [l])
    (hpbf : parseBlocks [l] = [⟨hrule, l, []⟩])
    (hconv : convertToHtml (wrapBlock ⟨hrule, l, []⟩) =
      some (processHeading hrule l))
    (hlev : headingLevelStr hrule = some d)
    (hht : headingText l = rtrimWs (text.dropWhile isUniWs)) :
    strToHtml l = some (.ok [("<h".data ++ d ++ ">".data) ++
      escapeList (rtrimWs (text.dropWhile isUniWs)) ++
      ("</h".data ++ d ++ ">".data)]) := by
  rw [strToHtml_eq, topBlocks, hsplit, hpbf]
  have hph : processHeading hrule l =
      .ok (("<h".data ++ d ++ ">".data) ++
        escapeList (rtrimWs (text.dropWhile isUniWs)) ++
        ("</h".data ++ d ++ ">".data)) := by
    rw [processHeading, hlev, hht]
  simp only [List.map, mapPanicExcept]
  rw [hconv, hph]

/-- Claim C5: for every level in 1-3, a line of that many `#` markers,
one whitespace, and non-blank newline-free text renders to the matching
heading element, with the marker run and the leading whitespace run
stripped and trailing whitespace trimmed; the negative cases `#text`
(no whitespace after the marker) and `####text` (four markers) fall back
to paragraph text. -/
theorem claim5_headings :
    (∀ (n : Nat) (text : List Char), (n = 1 ∨ n = 2 ∨ n = 3) →
       text.any (fun c => !(isUniWs c)) = true →
       (∀ c ∈ text, c ≠ '\n') →
       strToHtml (List.replicate n '#' ++ ' ' :: text) =
         some (.ok [("<h".data ++ digitOf n ++ ">".data) ++
           escapeList (rtrimWs (text.dropWhile isUniWs)) ++
           ("</h".data ++ digitOf n ++ ">".data)]))
  ∧ strToHtml "#text".data = some (.ok ["<p>#text</p>".data])
  ∧ strToHtml "####text".data = some (.ok ["<p>####text</p>".data]) := by
  refine ⟨?_, rfl, rfl⟩
  intro n text hn hany hnl
  rcases hn with rfl | rfl | rfl
  · have hlnl : ∀ c ∈ ('#' :: ' ' :: text), c ≠ '\n' := by
      intro c hc
      rcases List.mem_cons.mp hc with rfl | h2
      · decide
      · rcases List.mem_cons.mp h2 with rfl | h3
        · decide
        · exact hnl c h3
    have hh : isHeadingLine ('#' :: ' ' :: text) = true := hany
    have h1 : parseBlocks ['#' :: ' ' :: text] =
        [⟨Rule.h1_heading, '#' :: ' ' :: text, []⟩] :=
      parseBlocksFuel_heading 1 _ rfl hh
    exact heading_pipeline ('#' :: ' ' :: text) text .h1_heading "1".data
      (splitLines_single _ (by simp) hlnl) h1 rfl rfl
      (headingText_eq _ text rfl hnl)
  · have hlnl : ∀ c ∈ ('#' :: '#' :: ' ' :: text), c ≠ '\n' := by
      intro c hc
      rcases List.mem_cons.mp hc with rfl | h2
      · decide
      · rcases List.mem_cons.mp h2 with rfl | h3
        · decide
        · rcases List.mem_cons.mp h3 with rfl | h4
          · decide
          · exact hnl c h4
    have hh : isHeadingLine ('#' :: '#' :: ' ' :: text) = true := hany
    have h1 : parseBlocks ['#' :: '#' :: ' ' :: text] =
        [⟨Rule.h2_heading, '#' :: '#' :: ' ' :: text, []⟩] :=
      parseBlocksFuel_heading 1 _ rfl hh
    exact heading_pipeline ('#' :: '#' :: ' ' :: text) text .h2_heading "2".data
      (splitLines_single _ (by simp) hlnl) h1 rfl rfl
      (headingText_eq _ text rfl hnl)
  · have hlnl : ∀ c ∈ ('#' :: '#' :: '#' :: ' ' :: text), c ≠ '\n' := by
      intro c hc
      rcases List.mem_cons.mp hc with rfl | h2
      · decide
      · rcases List.mem_cons.mp h2 with rfl | h3
        · decide
        · rcases List.mem_cons.mp h3 with rfl | h4
          · decide
          · rcases List.mem_cons.mp h4 with rfl | h5
            · decide
            · exact hnl c h5
    have hh : isHeadingLine ('#' :: '#' :: '#' :: ' ' :: text) = true := hany
    have h1 : parseBlocks ['#' :: '#' :: '#' :: ' ' :: text] =
        [⟨Rule.h3_heading, '#' :: '#' :: '#' :: ' ' :: text, []⟩] :=
      parseBlocksFuel_heading 1 _ rfl hh
    exact heading_pipeline ('#' :: '#' :: '#' :: ' ' :: text) text .h3_heading
      "3".data (splitLines_single _ (by simp) hlnl) h1 rfl rfl
      (headingText_eq _ text rfl hnl)

/-- Witness for claim C5 at level 2 with the text `Hi`. -/
theorem claim5_witness :
    strToHtml "## Hi".data = some (.ok ["<h2>Hi</h2>".data]) := by
  have h := claim5_headings.1 2 "Hi".data (Or.inr (Or.inl rfl)) (by decide)
    (by decide)
  exact h
